import Mathlib

/-!
Shallow embedding of `geeteventbus/async_eventbus.py` (class `AsynchronousEventBus`)
and proofs about its registry, routing, queueing and lifecycle operations.

Modelling conventions:
* A Python string is represented by the list of bytes of its UTF-8 encoding
  (`Str`); `get_crc32` consumes exactly those bytes, so the encoding step of
  the Python helper is absorbed into the representation.
* A subscriber is compared by object identity in the registry, so it is
  modelled by an identity token (`Consumer`).  The registry operations below
  are the code paths taken for arguments passing the `isinstance` checks.
* Python dicts become association lists with first-match lookup, in-place
  replacement of the value of an existing key, and append of a fresh key
  (`dlookup`, `dinsert`, `dremove`), mirroring dict insertion-order
  semantics; Python `list.remove` is `List.erase` (first occurrence).
* The constructor line `self.topics = MAX_TOPIC_INDEX * [{}]` builds a
  16-element Python list whose entries are all references to ONE dictionary
  object, so the state carries that single dictionary (`BusState.topics`);
  `topicsArray` rebuilds the Python list of 16 aliases.  Likewise
  `self.index_locks = [Lock()] * MAX_TOPIC_INDEX` is 16 references to one
  lock object, modelled by replicating one lock identity.
* A `queue.Queue(maxsize)` becomes a list plus its `maxsize`; `put` on a
  bounded queue that is full blocks the caller, modelled as the absence of
  a completed transition (`Option.none`); the per-worker lanes are created
  with `Queue()` and are therefore unbounded (their `put` never blocks).
* A raised Python exception is `Except.error`, carrying the state at the
  moment of the raise.
* The wall clock `time()` is an explicit `now : Nat` argument.
-/

namespace AsyncEventBus

/-- Python string, as the bytes of its UTF-8 encoding. -/
abbrev Str := List Nat

/-- Subscriber object identity. -/
abbrev Consumer := Nat

/-- Python: MAX_TOPIC_INDEX = 16 (must be power of 2). -/
def MAX_TOPIC_INDEX : Nat := 16

/-- Python: DEFAULT_EXECUTOR_COUNT = 8. -/
def DEFAULT_EXECUTOR_COUNT : Int := 8

/-- Python: MIN_EXECUTOR_COUNT = 1 (defined but never used by the code). -/
def MIN_EXECUTOR_COUNT : Int := 1

/-- Python: MAX_EXECUTOR_COUNT = 128. -/
def MAX_EXECUTOR_COUNT : Nat := 128

/-- Python: MAXIMUM_QUEUE_LENGTH = 25600 (defined but never used). -/
def MAXIMUM_QUEUE_LENGTH : Nat := 25600

/-- One bit-step of the reflected CRC-32 (polynomial 0xEDB88320) used by
`zlib.crc32`. -/
def crc32_step (c : Nat) : Nat :=
  if c % 2 = 1 then (c / 2) ^^^ 0xEDB88320 else c / 2

/-- Fold one input byte into the CRC-32 accumulator (eight bit-steps). -/
def crc32_update (c b : Nat) : Nat :=
  crc32_step^[8] (c ^^^ (b % 256))

/-- Python: get_crc32(data) = zlib.crc32(bytes(data, encoding='UTF-8')).
In Python 3 the result is the unsigned 32-bit CRC, so the `abs` applied to
it in `_choose_queue` is the identity. -/
def get_crc32 (data : Str) : Nat :=
  (data.foldl crc32_update 0xFFFFFFFF) ^^^ 0xFFFFFFFF

/-- Dict lookup: value of the first entry whose key matches. -/
def dlookup {κ α : Type} [DecidableEq κ] (k : κ) : List (κ × α) → Option α
  | [] => none
  | (k', v) :: rest => if k' = k then some v else dlookup k rest

/-- Dict assignment `d[k] = v`: replace the value of the first entry with
key `k` in place, or append a fresh entry at the end. -/
def dinsert {κ α : Type} [DecidableEq κ] (k : κ) (v : α) : List (κ × α) → List (κ × α)
  | [] => [(k, v)]
  | (k', v') :: rest =>
      if k' = k then (k', v) :: rest else (k', v') :: dinsert k v rest

/-- Dict deletion `del d[k]`: drop the first entry with key `k`. -/
def dremove {κ α : Type} [DecidableEq κ] (k : κ) : List (κ × α) → List (κ × α)
  | [] => []
  | (k', v') :: rest => if k' = k then rest else (k', v') :: dremove k rest

/-- Python Event (from geeteventbus.event): carries a topic, an event type
name and an optional ordering key; only the fields the bus reads
(`get_topic`, `get_ordered`) are modelled. -/
structure Event : Type where
  topic : Str
  ordered : Option Str
deriving DecidableEq

/-- Argument to `post`: either an `Event` instance or any other object
(failing the `isinstance(eventobj, Event)` check). -/
inductive PostArg : Type
  | event : Event → PostArg
  | notEvent : PostArg
deriving DecidableEq

/-- Result of `_choose_queue`: the shared unordered `event_queue` or the
per-worker lane `grouped_events[i]`. -/
inductive QueueRef : Type
  | shared : QueueRef
  | lane : Int → QueueRef
deriving DecidableEq

/-- State of an `AsynchronousEventBus` object.  `topics` is the single
dictionary that all 16 entries of the Python list `MAX_TOPIC_INDEX * [{}]`
alias; `index_locks` records the identity of the lock object stored at
each position of `[Lock()] * MAX_TOPIC_INDEX`; `subscriber_locks` records
the keys of the per-subscriber lock dict; `event_queue_maxsize` is the
`maxsize` the shared queue was constructed with. -/
structure BusState : Type where
  subscribers_thread_safe : Bool
  topics : List (Str × List Consumer)
  consumers : List (Consumer × List Str)
  subscriber_locks : List Consumer
  keep_running : Bool
  stop_time : Nat
  index_locks : List Nat
  event_queue : List Event
  event_queue_maxsize : Int
  executor_count : Int
  grouped_events : List (List Event)
deriving DecidableEq

/-- The Python attribute `self.topics`, a 16-element list whose entries all
reference the one dictionary carried by the state. -/
def topicsArray (s : BusState) : List (List (Str × List Consumer)) :=
  List.replicate MAX_TOPIC_INDEX s.topics

/-- Python: AsynchronousEventBus.__init__(max_queued_event=10000,
executor_count=DEFAULT_EXECUTOR_COUNT, subscribers_thread_safe=True).
The executor count is `min(executor_count, MAX_EXECUTOR_COUNT)`; the
constructor then creates one worker thread and one unbounded lane queue per
index of `range(self.executor_count)` (empty when the count is not
positive).  All 16 entries of `index_locks` hold the same lock object. -/
def initBus (max_queued_event executor_count : Int)
    (subscribers_thread_safe : Bool) : BusState :=
  { subscribers_thread_safe := subscribers_thread_safe
    topics := []
    consumers := []
    subscriber_locks := []
    keep_running := true
    stop_time := 0
    index_locks := List.replicate MAX_TOPIC_INDEX 0
    event_queue := []
    event_queue_maxsize := max_queued_event
    executor_count := min executor_count (MAX_EXECUTOR_COUNT : Int)
    grouped_events :=
      List.replicate (min executor_count (MAX_EXECUTOR_COUNT : Int)).toNat [] }

/-- Python: _get_topic_index(topic) = get_crc32(topic) & (MAX_TOPIC_INDEX - 1).
It selects which of the 16 aliases of the one topics dictionary (and of the
one shard lock) is used; since every index leads to the same objects, the
registry operations below act on the single dictionary directly. -/
def _get_topic_index (topic : Str) : Nat :=
  get_crc32 topic &&& (MAX_TOPIC_INDEX - 1)

/-- Python: _choose_queue(eventobj).  An event with an ordering key goes to
lane `(abs(get_crc32(key)) & (MAX_EXECUTOR_COUNT - 1)) % executor_count`
(the `abs` is the identity, the crc being unsigned); an event without one
goes to the shared `event_queue`. -/
def _choose_queue (s : BusState) (e : Event) : QueueRef :=
  match e.ordered with
  | some key =>
      QueueRef.lane
        (((get_crc32 key &&& (MAX_EXECUTOR_COUNT - 1) : Nat) : Int) % s.executor_count)
  | none => QueueRef.shared

/-- Python: post(eventobj).  Returns `some (state, result)` for a call that
returns, `none` for a call that blocks in `queue.put` (bounded shared queue
already full, i.e. `0 < maxsize ≤ qsize`).  A non-Event argument and a bus
that is not running are reported by `False`; otherwise the event is
enqueued on the queue chosen by `_choose_queue` (the lane queues are
unbounded, so their `put` never blocks). -/
def post (s : BusState) (x : PostArg) : Option (BusState × Bool) :=
  match x with
  | PostArg.notEvent => some (s, false)
  | PostArg.event e =>
    if s.keep_running = false then some (s, false)
    else
      match _choose_queue s e with
      | QueueRef.shared =>
          if 0 < s.event_queue_maxsize ∧
              s.event_queue_maxsize ≤ (s.event_queue.length : Int) then
            none
          else
            some ({ s with event_queue := s.event_queue ++ [e] }, true)
      | QueueRef.lane i =>
          let lane' := (s.grouped_events.getD i.toNat []) ++ [e]
          some ({ s with grouped_events := s.grouped_events.set i.toNat lane' }, true)

/-- The state after a `post` call, a blocked call producing no transition. -/
def postStep (s : BusState) (x : PostArg) : BusState :=
  match post s x with
  | some (s', _) => s'
  | none => s

/-- The state after a sequence of `post` calls. -/
def postAll (s : BusState) (xs : List PostArg) : BusState :=
  xs.foldl postStep s

/-- Total number of events queued anywhere in the bus: shared unordered
queue plus every per-worker lane queue. -/
def totalQueued (s : BusState) : Nat :=
  s.event_queue.length + (s.grouped_events.map List.length).sum

/-- Python: register_consumer(consumer, topic), for a `consumer` passing the
`isinstance(consumer, Subscriber)` check (otherwise the method returns
`False` without touching the state).  The shard written through
`self.topics[indexval]` is the one shared dictionary. -/
def register_consumer (s : BusState) (c : Consumer) (t : Str) : BusState :=
  let topics' :=
    match dlookup t s.topics with
    | none => dinsert t [c] s.topics
    | some lst => if c ∈ lst then s.topics else dinsert t (lst ++ [c]) s.topics
  let consumers' :=
    match dlookup c s.consumers with
    | none => dinsert c [t] s.consumers
    | some ts => if t ∈ ts then s.consumers else dinsert c (ts ++ [t]) s.consumers
  let locks' :=
    if s.subscribers_thread_safe = false ∧ c ∉ s.subscriber_locks then
      s.subscriber_locks ++ [c]
    else s.subscriber_locks
  { s with topics := topics', consumers := consumers', subscriber_locks := locks' }

/-- Python: one iteration of the unregister loop body, for one subscribed
topic: if the topic is present and the consumer is in its list, remove the
first occurrence of the consumer, and delete the topic entry when its list
becomes empty. -/
def removeFromTopic (tm : List (Str × List Consumer)) (c : Consumer)
    (t : Str) : List (Str × List Consumer) :=
  match dlookup t tm with
  | none => tm
  | some lst =>
      if c ∈ lst then
        let lst' := lst.erase c
        if lst'.length = 0 then dremove t tm else dinsert t lst' tm
      else tm

/-- Python: unregister_consumer(consumer).  The method sets
`subscribed_topics = None`, replaces it by the consumer's topic list only
when the consumer is registered, runs the lock-deletion branch, and then
iterates `for topic in subscribed_topics`.  When the consumer is not
registered that iteration is over `None` and raises `TypeError`, modelled
by `Except.error` carrying the state at the raise point. -/
def unregister_consumer (s : BusState) (c : Consumer) :
    Except BusState BusState :=
  let locks' :=
    if s.subscribers_thread_safe = true ∧ c ∈ s.subscriber_locks then
      s.subscriber_locks.erase c
    else s.subscriber_locks
  match dlookup c s.consumers with
  | none => Except.error { s with subscriber_locks := locks' }
  | some subscribed_topics =>
      Except.ok { s with
        consumers := dremove c s.consumers
        subscriber_locks := locks'
        topics := subscribed_topics.foldl
          (fun tm topic => removeFromTopic tm c topic) s.topics }

/-- Python: is_subscribed(consumer, topic), for a `consumer` passing the
`isinstance` check (otherwise the method returns `False`). -/
def is_subscribed (s : BusState) (c : Consumer) (t : Str) : Bool :=
  match dlookup t s.topics with
  | none => false
  | some lst => decide (c ∈ lst)

/-- Python: _thread_should_end() = self.stop_time > 0 and time() < self.stop_time. -/
def _thread_should_end (s : BusState) (now : Nat) : Bool :=
  decide (0 < s.stop_time) && decide (now < s.stop_time)

/-- Python: shutdown().  Under `shutdown_lock`, a caller that finds
`keep_running` already false returns at once; the first caller flips
`keep_running`, sets `stop_time = time() + 2` and joins every executor
thread.  The returned flag records whether this caller performed the
drain-and-join transition. -/
def shutdown (now : Nat) (s : BusState) : BusState × Bool :=
  if s.keep_running = false then (s, false)
  else ({ s with keep_running := false, stop_time := now + 2 }, true)

/-! Association-list (Python dict) lemmas. -/

theorem dlookup_dinsert_self {κ α : Type} [DecidableEq κ] (k : κ) (v : α) :
    ∀ tm : List (κ × α), dlookup k (dinsert k v tm) = some v
  | [] => by simp [dinsert, dlookup]
  | (a, w) :: rest => by
      by_cases ha : a = k
      · simp [dinsert, dlookup, ha]
      · simp [dinsert, dlookup, ha, dlookup_dinsert_self k v rest]

theorem dlookup_dinsert_ne {κ α : Type} [DecidableEq κ] {k k' : κ} (h : k' ≠ k) (v : α) :
    ∀ tm : List (κ × α), dlookup k (dinsert k' v tm) = dlookup k tm
  | [] => by simp [dinsert, dlookup, h]
  | (a, w) :: rest => by
      by_cases ha : a = k'
      · subst ha
        simp [dinsert, dlookup, h]
      · simp [dinsert, dlookup, ha, dlookup_dinsert_ne h v rest]

theorem dlookup_dremove_ne {κ α : Type} [DecidableEq κ] {k k' : κ} (h : k' ≠ k) :
    ∀ tm : List (κ × α), dlookup k (dremove k' tm) = dlookup k tm
  | [] => rfl
  | (a, w) :: rest => by
      by_cases ha : a = k'
      · subst ha
        simp [dremove, dlookup, h]
      · simp [dremove, dlookup, ha, dlookup_dremove_ne h rest]

theorem dlookup_eq_none_iff {κ α : Type} [DecidableEq κ] (k : κ) :
    ∀ tm : List (κ × α), dlookup k tm = none ↔ k ∉ tm.map Prod.fst
  | [] => by simp [dlookup]
  | (a, w) :: rest => by
      by_cases ha : a = k
      · subst ha
        simp [dlookup]
      · have hka : ¬k = a := fun h => ha h.symm
        simp [dlookup, ha, hka, dlookup_eq_none_iff k rest]

theorem dlookup_mem {κ α : Type} [DecidableEq κ] {k : κ} {v : α} :
    ∀ {tm : List (κ × α)}, dlookup k tm = some v → (k, v) ∈ tm
  | [], h => by simp [dlookup] at h
  | (a, w) :: rest, h => by
      by_cases ha : a = k
      · subst ha
        simp [dlookup] at h
        simp [h]
      · simp [dlookup, ha] at h
        exact List.mem_cons_of_mem _ (dlookup_mem h)

theorem dlookup_dremove_self {κ α : Type} [DecidableEq κ] (k : κ) :
    ∀ tm : List (κ × α), (tm.map Prod.fst).Nodup →
      dlookup k (dremove k tm) = none
  | [], _ => rfl
  | (a, w) :: rest, hnd => by
      have hnd' : (rest.map Prod.fst).Nodup := (List.nodup_cons.1 hnd).2
      by_cases ha : a = k
      · subst ha
        have : a ∉ rest.map Prod.fst := (List.nodup_cons.1 hnd).1
        simp [dremove, (dlookup_eq_none_iff a rest).2 this]
      · simp [dremove, dlookup, ha, dlookup_dremove_self k rest hnd']

theorem mem_dinsert {κ α : Type} [DecidableEq κ] {p : κ × α} {k : κ} {v : α} :
    ∀ {tm : List (κ × α)}, p ∈ dinsert k v tm → p = (k, v) ∨ p ∈ tm
  | [], h => by simpa [dinsert] using h
  | (a, w) :: rest, h => by
      by_cases ha : a = k
      · subst ha
        simp [dinsert] at h
        rcases h with h | h
        · exact Or.inl (by simp [h])
        · exact Or.inr (List.mem_cons_of_mem _ h)
      · simp [dinsert, ha] at h
        rcases h with h | h
        · exact Or.inr (by simp [h])
        · rcases mem_dinsert h with h' | h'
          · exact Or.inl h'
          · exact Or.inr (List.mem_cons_of_mem _ h')

theorem mem_dremove {κ α : Type} [DecidableEq κ] {p : κ × α} {k : κ} :
    ∀ {tm : List (κ × α)}, p ∈ dremove k tm → p ∈ tm
  | [], h => by simp [dremove] at h
  | (a, w) :: rest, h => by
      by_cases ha : a = k
      · subst ha
        simp [dremove] at h
        exact List.mem_cons_of_mem _ h
      · simp [dremove, ha] at h
        rcases h with h | h
        · exact by simp [h]
        · exact List.mem_cons_of_mem _ (mem_dremove h)

theorem keys_mem_dinsert {κ α : Type} [DecidableEq κ] {x k : κ} {v : α} :
    ∀ {tm : List (κ × α)}, x ∈ (dinsert k v tm).map Prod.fst →
      x = k ∨ x ∈ tm.map Prod.fst
  | [], h => by simpa [dinsert] using h
  | (a, w) :: rest, h => by
      by_cases ha : a = k
      · subst ha
        simpa [dinsert] using h
      · simp only [dinsert, if_neg ha, List.map_cons, List.mem_cons] at h
        rcases h with h | h
        · exact Or.inr (by simp [h])
        · rcases keys_mem_dinsert h with h' | h'
          · exact Or.inl h'
          · exact Or.inr (by simp [h'])

theorem keys_nodup_dinsert {κ α : Type} [DecidableEq κ] (k : κ) (v : α) :
    ∀ tm : List (κ × α), (tm.map Prod.fst).Nodup →
      ((dinsert k v tm).map Prod.fst).Nodup
  | [], _ => by simp [dinsert]
  | (a, w) :: rest, hnd => by
      obtain ⟨hna, hnd'⟩ := List.nodup_cons.1 hnd
      by_cases ha : a = k
      · subst ha
        simpa [dinsert] using hnd
      · simp only [dinsert, if_neg ha, List.map_cons]
        refine List.nodup_cons.2 ⟨?_, keys_nodup_dinsert k v rest hnd'⟩
        intro hmem
        rcases keys_mem_dinsert hmem with h' | h'
        · exact ha h'
        · exact hna h'

theorem keys_nodup_dremove {κ α : Type} [DecidableEq κ] (k : κ) :
    ∀ tm : List (κ × α), (tm.map Prod.fst).Nodup →
      ((dremove k tm).map Prod.fst).Nodup
  | [], _ => by simp [dremove]
  | (a, w) :: rest, hnd => by
      obtain ⟨hna, hnd'⟩ := List.nodup_cons.1 hnd
      by_cases ha : a = k
      · subst ha
        simpa [dremove] using hnd'
      · simp only [dremove, if_neg ha, List.map_cons]
        refine List.nodup_cons.2 ⟨?_, keys_nodup_dremove k rest hnd'⟩
        intro hmem
        rcases List.mem_map.1 hmem with ⟨q, hq, hqx⟩
        have hq' : q ∈ rest := mem_dremove hq
        have hmem' : Prod.fst q ∈ rest.map Prod.fst := List.mem_map_of_mem Prod.fst hq'
        rw [hqx] at hmem'
        exact hna hmem'

/-! Registry well-formedness: what the dict representation guarantees (keys
are unique) together with what `register_consumer` maintains (no duplicate
subscriber in a topic's list). -/

/-- The topics dictionary has unique keys and duplicate-free subscriber
lists; this holds of the empty initial registry and is preserved by every
registry operation. -/
def wfTopics (tm : List (Str × List Consumer)) : Prop :=
  (tm.map Prod.fst).Nodup ∧ ∀ p ∈ tm, p.2.Nodup

/-- The consumer `c` does not appear in the subscriber list of topic `t`. -/
def notIn (c : Consumer) (t : Str) (tm : List (Str × List Consumer)) : Prop :=
  ∀ lst, dlookup t tm = some lst → c ∉ lst

theorem wf_dinsert {tm : List (Str × List Consumer)} {t : Str}
    {v : List Consumer} (hwf : wfTopics tm) (hv : v.Nodup) :
    wfTopics (dinsert t v tm) := by
  refine ⟨keys_nodup_dinsert t v tm hwf.1, ?_⟩
  intro p hp
  rcases mem_dinsert hp with h | h
  · rw [h]
    exact hv
  · exact hwf.2 p h

theorem wf_dremove {tm : List (Str × List Consumer)} {t : Str}
    (hwf : wfTopics tm) : wfTopics (dremove t tm) :=
  ⟨keys_nodup_dremove t tm hwf.1, fun p hp => hwf.2 p (mem_dremove hp)⟩

theorem removeFromTopic_none {tm : List (Str × List Consumer)} {c : Consumer}
    {t : Str} (hl : dlookup t tm = none) : removeFromTopic tm c t = tm := by
  simp only [removeFromTopic, hl]

theorem removeFromTopic_not_mem {tm : List (Str × List Consumer)}
    {c : Consumer} {t : Str} {lst : List Consumer}
    (hl : dlookup t tm = some lst) (hc : c ∉ lst) :
    removeFromTopic tm c t = tm := by
  simp only [removeFromTopic, hl, if_neg hc]

theorem removeFromTopic_del {tm : List (Str × List Consumer)} {c : Consumer}
    {t : Str} {lst : List Consumer} (hl : dlookup t tm = some lst)
    (hc : c ∈ lst) (hz : (lst.erase c).length = 0) :
    removeFromTopic tm c t = dremove t tm := by
  simp only [removeFromTopic, hl, if_pos hc, if_pos hz]

theorem removeFromTopic_upd {tm : List (Str × List Consumer)} {c : Consumer}
    {t : Str} {lst : List Consumer} (hl : dlookup t tm = some lst)
    (hc : c ∈ lst) (hz : ¬(lst.erase c).length = 0) :
    removeFromTopic tm c t = dinsert t (lst.erase c) tm := by
  simp only [removeFromTopic, hl, if_pos hc, if_neg hz]

theorem wf_removeFromTopic {tm : List (Str × List Consumer)}
    (c : Consumer) (t : Str) (hwf : wfTopics tm) :
    wfTopics (removeFromTopic tm c t) := by
  cases hl : dlookup t tm with
  | none =>
      rw [removeFromTopic_none hl]
      exact hwf
  | some lst =>
      by_cases hc : c ∈ lst
      · have hnd : lst.Nodup := hwf.2 (t, lst) (dlookup_mem hl)
        by_cases hz : (lst.erase c).length = 0
        · rw [removeFromTopic_del hl hc hz]
          exact wf_dremove hwf
        · rw [removeFromTopic_upd hl hc hz]
          exact wf_dinsert hwf (hnd.erase c)
      · rw [removeFromTopic_not_mem hl hc]
        exact hwf

theorem removeFromTopic_lookup_ne {tm : List (Str × List Consumer)}
    {c : Consumer} {t t' : Str} (h : t' ≠ t) :
    dlookup t (removeFromTopic tm c t') = dlookup t tm := by
  cases hl : dlookup t' tm with
  | none => rw [removeFromTopic_none hl]
  | some lst =>
      by_cases hc : c ∈ lst
      · by_cases hz : (lst.erase c).length = 0
        · rw [removeFromTopic_del hl hc hz, dlookup_dremove_ne h]
        · rw [removeFromTopic_upd hl hc hz, dlookup_dinsert_ne h]
      · rw [removeFromTopic_not_mem hl hc]

theorem removeFromTopic_self_notIn {tm : List (Str × List Consumer)}
    {c : Consumer} {t : Str} (hwf : wfTopics tm) :
    notIn c t (removeFromTopic tm c t) := by
  cases hl : dlookup t tm with
  | none =>
      rw [removeFromTopic_none hl]
      intro lst h'
      rw [hl] at h'
      cases h'
  | some lst =>
      by_cases hc : c ∈ lst
      · have hnd : lst.Nodup := hwf.2 (t, lst) (dlookup_mem hl)
        have hce : c ∉ lst.erase c := fun hmem =>
          (hnd.mem_erase_iff.1 hmem).1 rfl
        by_cases hz : (lst.erase c).length = 0
        · rw [removeFromTopic_del hl hc hz]
          intro lst' h'
          rw [dlookup_dremove_self t tm hwf.1] at h'
          cases h'
        · rw [removeFromTopic_upd hl hc hz]
          intro lst' h'
          rw [dlookup_dinsert_self t (lst.erase c) tm] at h'
          cases h'
          exact hce
      · rw [removeFromTopic_not_mem hl hc]
        intro lst' h'
        rw [hl] at h'
        cases h'
        exact hc

theorem removeFromTopic_preserve_notIn {tm : List (Str × List Consumer)}
    {c : Consumer} {t : Str} (t' : Str) (h : notIn c t tm) :
    notIn c t (removeFromTopic tm c t') := by
  by_cases ht : t' = t
  · subst ht
    cases hl : dlookup t' tm with
    | none =>
        rw [removeFromTopic_none hl]
        exact h
    | some lst =>
        rw [removeFromTopic_not_mem hl (h lst hl)]
        exact h
  · intro lst h'
    rw [removeFromTopic_lookup_ne ht] at h'
    exact h lst h'

theorem foldl_remove_preserve_notIn (c : Consumer) (t : Str) :
    ∀ (ts : List Str) (tm : List (Str × List Consumer)), notIn c t tm →
      notIn c t (List.foldl (fun tm topic => removeFromTopic tm c topic) tm ts)
  | [], _, h => h
  | t0 :: rest, tm, h =>
      foldl_remove_preserve_notIn c t rest (removeFromTopic tm c t0)
        (removeFromTopic_preserve_notIn t0 h)

theorem foldl_remove_notIn (c : Consumer) (t : Str) :
    ∀ (ts : List Str) (tm : List (Str × List Consumer)), wfTopics tm → t ∈ ts →
      notIn c t (List.foldl (fun tm topic => removeFromTopic tm c topic) tm ts)
  | [], _, _, hmem => absurd hmem (by simp)
  | t0 :: rest, tm, hwf, hmem => by
      rw [List.foldl_cons]
      by_cases h0 : t0 = t
      · subst h0
        exact foldl_remove_preserve_notIn c t0 rest _
          (removeFromTopic_self_notIn hwf)
      · have hmem' : t ∈ rest := by
          rcases List.mem_cons.1 hmem with h | h
          · exact absurd h.symm h0
          · exact h
        exact foldl_remove_notIn c t rest _ (wf_removeFromTopic c t0 hwf) hmem'

/-! Lemmas about `register_consumer`, `unregister_consumer` and
`is_subscribed`. -/

theorem register_consumers_lookup (s : BusState) (c : Consumer) (t : Str) :
    ∃ ts1, dlookup c (register_consumer s c t).consumers = some ts1 ∧ t ∈ ts1 := by
  cases h : dlookup c s.consumers with
  | none =>
      refine ⟨[t], ?_, by simp⟩
      simp only [register_consumer, h]
      exact dlookup_dinsert_self c [t] s.consumers
  | some ts =>
      by_cases ht : t ∈ ts
      · refine ⟨ts, ?_, ht⟩
        simp only [register_consumer, h, if_pos ht]
      · refine ⟨ts ++ [t], ?_, by simp⟩
        simp only [register_consumer, h, if_neg ht]
        exact dlookup_dinsert_self c (ts ++ [t]) s.consumers

theorem register_wfTopics (s : BusState) (c : Consumer) (t : Str)
    (hwf : wfTopics s.topics) : wfTopics (register_consumer s c t).topics := by
  cases h : dlookup t s.topics with
  | none =>
      simp only [register_consumer, h]
      exact wf_dinsert hwf (List.nodup_singleton c)
  | some lst =>
      by_cases hc : c ∈ lst
      · simp only [register_consumer, h, if_pos hc]
        exact hwf
      · simp only [register_consumer, h, if_neg hc]
        have hnd : lst.Nodup := hwf.2 (t, lst) (dlookup_mem h)
        have happ : (lst ++ [c]).Nodup := by
          refine List.nodup_append.2 ⟨hnd, List.nodup_singleton c, ?_⟩
          intro a ha hamem
          rw [List.mem_singleton] at hamem
          exact hc (hamem ▸ ha)
        exact wf_dinsert hwf happ

theorem unregister_ok {s : BusState} {c : Consumer} {ts : List Str}
    (h : dlookup c s.consumers = some ts) :
    unregister_consumer s c = Except.ok { s with
      consumers := dremove c s.consumers
      subscriber_locks :=
        if s.subscribers_thread_safe = true ∧ c ∈ s.subscriber_locks then
          s.subscriber_locks.erase c
        else s.subscriber_locks
      topics := ts.foldl (fun tm topic => removeFromTopic tm c topic) s.topics } := by
  simp only [unregister_consumer, h]

theorem is_subscribed_eq_false {s : BusState} {c : Consumer} {t : Str}
    (h : notIn c t s.topics) : is_subscribed s c t = false := by
  unfold is_subscribed
  cases hl : dlookup t s.topics with
  | none => rfl
  | some lst => simpa using h lst hl

/-- C8: for every subscriber c and topic t, registering c to t and then
unregistering c (which succeeds, returning normally) leaves a state in
which is_subscribed(c, t) is false.  The hypothesis is the registry
well-formedness invariant (dict keys unique, no duplicate subscriber in a
topic's list), which holds in every reachable state. -/
theorem register_unregister_not_subscribed (s : BusState) (c : Consumer)
    (t : Str) (hwf : wfTopics s.topics) :
    (unregister_consumer (register_consumer s c t) c).map
      (fun s2 => is_subscribed s2 c t) = Except.ok false := by
  obtain ⟨ts1, hts1, hmem⟩ := register_consumers_lookup s c t
  rw [unregister_ok hts1]
  have hwf1 : wfTopics (register_consumer s c t).topics :=
    register_wfTopics s c t hwf
  have hni := foldl_remove_notIn c t ts1 (register_consumer s c t).topics hwf1 hmem
  simp only [Except.map]
  exact congrArg Except.ok (is_subscribed_eq_false hni)

/-- Witness for C8 at a concrete input: a fresh bus, consumer 0 and topic
"t" (byte 116); the round trip returns normally and is_subscribed is false. -/
theorem register_unregister_witness :
    (unregister_consumer (register_consumer (initBus 10000 8 true) 0 [116]) 0).map
      (fun s2 => is_subscribed s2 0 [116]) = Except.ok false :=
  register_unregister_not_subscribed (initBus 10000 8 true) 0 [116]
    ⟨List.nodup_nil, fun p hp => absurd hp (List.not_mem_nil p)⟩

/-- C1 (code bug): calling unregister_consumer on a consumer that is not
currently registered is not a no-op returning normally: the code leaves
`subscribed_topics = None` and then runs `for topic in subscribed_topics`,
which raises TypeError.  Evaluated on a fresh bus and consumer 0, the call
raises (the error value carries the state at the raise point, here the
unchanged fresh state). -/
theorem unregister_never_registered_raises :
    unregister_consumer (initBus 10000 8 true) 0 =
      Except.error (initBus 10000 8 true) := rfl

/-- C2 (code bug): the worker loop-exit predicate is inverted.  With the
stop deadline set to 10, at time 5 (before the deadline, when the claim
says workers keep draining) `_thread_should_end` already answers true, and
at time 12 (after the deadline, when the claim says workers stop) it
answers false; only the unset case (stop_time = 0) matches the claim. -/
theorem thread_should_end_inverted :
    _thread_should_end { initBus 10000 8 true with stop_time := 10 } 5 = true
  ∧ _thread_should_end { initBus 10000 8 true with stop_time := 10 } 12 = false
  ∧ _thread_should_end (initBus 10000 8 true) 7 = false := by
  decide

/-- C5 (counterexample): with executor_count = 0 the bus creates 0 worker
threads and 0 lane queues, and its executor count is below
MIN_EXECUTOR_COUNT = 1 — there is no lower clamp. -/
theorem executor_count_no_lower_clamp :
    (initBus 10000 0 true).executor_count = 0
  ∧ (initBus 10000 0 true).grouped_events.length = 0
  ∧ ¬MIN_EXECUTOR_COUNT ≤ (initBus 10000 0 true).executor_count := by
  decide

/-- C5 (amended): the constructor clamps executor_count only from above,
to MAX_EXECUTOR_COUNT = 128 via min(executor_count, MAX_EXECUTOR_COUNT);
the number of lane queues (and worker threads) created is that clamped
value when positive and zero otherwise — zero or negative inputs are not
raised to 1. -/
theorem executor_count_clamp (mq n : Int) (ts : Bool) :
    (initBus mq n ts).executor_count = min n (MAX_EXECUTOR_COUNT : Int)
  ∧ (initBus mq n ts).executor_count ≤ (MAX_EXECUTOR_COUNT : Int)
  ∧ (initBus mq n ts).grouped_events.length
      = (min n (MAX_EXECUTOR_COUNT : Int)).toNat := by
  refine ⟨rfl, ?_, ?_⟩
  · simp only [initBus]
    exact min_le_right n (MAX_EXECUTOR_COUNT : Int)
  · simp [initBus]

/-- C6 (code bug): with subscribers_thread_safe=False, registering consumer
0 creates its dispatch guard, but unregistering does not remove it: the
deletion is guarded by `if self.subscribers_thread_safe and ...`, which is
false in the only mode where guards exist, so the guard map still holds
consumer 0 after the (successful) unregister call. -/
theorem guard_survives_unregister :
    (register_consumer (initBus 10000 8 false) 0 [116]).subscriber_locks = [0]
  ∧ (unregister_consumer (register_consumer (initBus 10000 8 false) 0 [116]) 0).map
      (fun s2 => s2.subscriber_locks) = Except.ok [0] :=
  ⟨rfl, rfl⟩

/-- C9: shutdown is idempotent — after any shutdown call, a second call
returns at once with the state unchanged (same stop_time and all other
fields) and reports that it did not perform the drain-and-join transition. -/
theorem shutdown_idempotent (s : BusState) (now now' : Nat) :
    shutdown now' (shutdown now s).1 = ((shutdown now s).1, false) := by
  by_cases h : s.keep_running = false
  · simp [shutdown, h]
  · simp [shutdown, h]

theorem getD_replicate {α : Type} (d a : α) :
    ∀ (n i : Nat), i < n → (List.replicate n a).getD i d = a
  | 0, i, h => absurd h (Nat.not_lt_zero i)
  | _ + 1, 0, _ => rfl
  | n + 1, i + 1, h => getD_replicate d a n i (Nat.lt_of_succ_lt_succ h)

theorem register_topic_visible (s : BusState) (c : Consumer) (t : Str) :
    (dlookup t (register_consumer s c t).topics).isSome = true := by
  cases h : dlookup t s.topics with
  | none =>
      simp only [register_consumer, h]
      rw [dlookup_dinsert_self t [c] s.topics]
      rfl
  | some lst =>
      by_cases hc : c ∈ lst
      · simp only [register_consumer, h, if_pos hc]
        rfl
      · simp only [register_consumer, h, if_neg hc]
        rw [dlookup_dinsert_self t (lst ++ [c]) s.topics]
        rfl

/-- C10: all 16 entries of the topics shard array alias the single
dictionary built by `MAX_TOPIC_INDEX * [{}]`, so in every state (hence
before and after every register/unregister) shard i and shard j hold the
same map, a topic just registered is visible through every shard index,
and every entry of index_locks built by `[Lock()] * MAX_TOPIC_INDEX` is
the same lock object. -/
theorem topics_shards_alias (s : BusState) (c : Consumer) (t : Str)
    (mq ec : Int) (b : Bool) (i j : Fin MAX_TOPIC_INDEX) :
    (topicsArray s).getD i.val [] = (topicsArray s).getD j.val []
  ∧ (topicsArray (register_consumer s c t)).getD i.val []
      = (topicsArray (register_consumer s c t)).getD j.val []
  ∧ (dlookup t ((topicsArray (register_consumer s c t)).getD j.val [])).isSome
      = true
  ∧ (initBus mq ec b).index_locks.getD i.val 0
      = (initBus mq ec b).index_locks.getD j.val 0 := by
  refine ⟨?_, ?_, ?_, ?_⟩
  · rw [topicsArray, getD_replicate _ _ MAX_TOPIC_INDEX i.val i.isLt,
        getD_replicate _ _ MAX_TOPIC_INDEX j.val j.isLt]
  · rw [topicsArray, getD_replicate _ _ MAX_TOPIC_INDEX i.val i.isLt,
        getD_replicate _ _ MAX_TOPIC_INDEX j.val j.isLt]
  · rw [topicsArray, getD_replicate _ _ MAX_TOPIC_INDEX j.val j.isLt]
    exact register_topic_visible s c t
  · simp only [initBus]
    rw [getD_replicate _ _ MAX_TOPIC_INDEX i.val i.isLt,
        getD_replicate _ _ MAX_TOPIC_INDEX j.val j.isLt]

/-- C3: for an event carrying ordering key k, _choose_queue picks the lane
with index ((crc32 k) & (MAX_EXECUTOR_COUNT - 1)) % executor_count; that
index is nonnegative and strictly below the worker count, depends only on
the key and the executor count (so the same key goes to the same lane in
any state of a bus with that worker count, and post never changes the
worker count); an event without ordering key goes to the shared queue. -/
theorem choose_queue_spec (s s' : BusState) (e e' : Event) (k : Str)
    (hn : 1 ≤ s.executor_count) (he : e.ordered = some k) :
    _choose_queue s e = QueueRef.lane
        (((get_crc32 k &&& (MAX_EXECUTOR_COUNT - 1) : Nat) : Int) % s.executor_count)
  ∧ (∀ i, _choose_queue s e = QueueRef.lane i → 0 ≤ i ∧ i < s.executor_count)
  ∧ (e'.ordered = some k → s'.executor_count = s.executor_count →
      _choose_queue s' e' = _choose_queue s e)
  ∧ (∀ e0 : Event, e0.ordered = none → _choose_queue s e0 = QueueRef.shared)
  ∧ (∀ x r, post s x = some r → r.1.executor_count = s.executor_count) := by
  have hpos : (0 : Int) < s.executor_count := lt_of_lt_of_le zero_lt_one hn
  have heq : _choose_queue s e = QueueRef.lane
      (((get_crc32 k &&& (MAX_EXECUTOR_COUNT - 1) : Nat) : Int) % s.executor_count) := by
    simp [_choose_queue, he]
  refine ⟨heq, ?_, ?_, ?_, ?_⟩
  · intro i hi
    rw [heq] at hi
    cases hi
    exact ⟨Int.emod_nonneg _ (ne_of_gt hpos), Int.emod_lt_of_pos _ hpos⟩
  · intro he' hec
    rw [heq]
    simp [_choose_queue, he', hec]
  · intro e0 h0
    simp [_choose_queue, h0]
  · intro x r hr
    cases x with
    | notEvent =>
        simp only [post, Option.some.injEq] at hr
        subst hr
        rfl
    | event e0 =>
        by_cases hk : s.keep_running = false
        · simp only [post, if_pos hk, Option.some.injEq] at hr
          subst hr
          rfl
        · cases hq : _choose_queue s e0 with
          | shared =>
              by_cases hfull : 0 < s.event_queue_maxsize ∧
                  s.event_queue_maxsize ≤ (s.event_queue.length : Int)
              · simp [post, hk, hq, hfull] at hr
              · simp only [post, if_neg hk, hq, if_neg hfull,
                  Option.some.injEq] at hr
                subst hr
                rfl
          | lane i =>
              simp only [post, if_neg hk, hq, Option.some.injEq] at hr
              subst hr
              rfl

/-- Witness for C3: concrete routing of a key-less event on a fresh
8-worker bus, through the theorem instantiated at concrete inputs. -/
theorem choose_queue_witness :
    _choose_queue (initBus 10000 8 true) (Event.mk [118] none) = QueueRef.shared :=
  (choose_queue_spec (initBus 10000 8 true) (initBus 10000 8 true)
      (Event.mk [116] (some [97])) (Event.mk [116] (some [97])) [97]
      (by decide) rfl).2.2.2.1 (Event.mk [118] none) rfl

/-- C7: post returns a boolean and raises on no input: it returns False
exactly when the argument is not an Event instance or the bus has stopped
(in which case the state is untouched), and any call that completes with
a valid event on a running bus returns True. -/
theorem post_bool_spec (s : BusState) (x : PostArg) :
    (post s x = some (s, false) ↔ (x = PostArg.notEvent ∨ s.keep_running = false))
  ∧ (∀ r, post s x = some r →
      (r.2 = true ↔ (x ≠ PostArg.notEvent ∧ s.keep_running = true))) := by
  cases x with
  | notEvent =>
      refine ⟨by simp [post], ?_⟩
      intro r hr
      simp only [post, Option.some.injEq] at hr
      subst hr
      simp
  | event e =>
      by_cases hk : s.keep_running = false
      · refine ⟨by simp [post, hk], ?_⟩
        intro r hr
        simp only [post, if_pos hk, Option.some.injEq] at hr
        subst hr
        simp [hk]
      · cases hq : _choose_queue s e with
        | shared =>
            by_cases hfull : 0 < s.event_queue_maxsize ∧
                s.event_queue_maxsize ≤ (s.event_queue.length : Int)
            · refine ⟨by simp [post, hk, hq, hfull], ?_⟩
              intro r hr
              simp [post, hk, hq, hfull] at hr
            · refine ⟨by simp [post, hk, hq, hfull], ?_⟩
              intro r hr
              simp only [post, if_neg hk, hq, if_neg hfull,
                Option.some.injEq] at hr
              subst hr
              simp [hk]
        | lane i =>
            refine ⟨by simp [post, hk, hq], ?_⟩
            intro r hr
            simp only [post, if_neg hk, hq, Option.some.injEq] at hr
            subst hr
            simp [hk]

/-- Witness for C7: posting a non-Event object on a fresh bus returns
normally with False and the state unchanged. -/
theorem post_bool_witness :
    post (initBus 10000 8 true) PostArg.notEvent =
      some (initBus 10000 8 true, false) :=
  (post_bool_spec (initBus 10000 8 true) PostArg.notEvent).1.mpr (Or.inl rfl)

theorem postStep_queue_bound (s : BusState) (x : PostArg)
    (hmax : 0 < s.event_queue_maxsize)
    (hlen : (s.event_queue.length : Int) ≤ s.event_queue_maxsize) :
    (postStep s x).event_queue_maxsize = s.event_queue_maxsize
  ∧ ((postStep s x).event_queue.length : Int) ≤ s.event_queue_maxsize := by
  cases x with
  | notEvent => exact ⟨rfl, hlen⟩
  | event e =>
      by_cases hk : s.keep_running = false
      · exact ⟨by simp [postStep, post, hk], by simpa [postStep, post, hk] using hlen⟩
      · cases hq : _choose_queue s e with
        | shared =>
            by_cases hfull : 0 < s.event_queue_maxsize ∧
                s.event_queue_maxsize ≤ (s.event_queue.length : Int)
            · exact ⟨by simp [postStep, post, hk, hq, hfull],
                by simpa [postStep, post, hk, hq, hfull] using hlen⟩
            · have hlt : (s.event_queue.length : Int) < s.event_queue_maxsize := by
                rcases not_and_or.1 hfull with h | h
                · exact absurd hmax h
                · exact lt_of_not_le h
              refine ⟨by simp [postStep, post, hk, hq, hfull], ?_⟩
              simp only [postStep, post, if_neg hk, hq, if_neg hfull,
                List.length_append, List.length_singleton]
              push_cast
              omega
        | lane i =>
            exact ⟨by simp [postStep, post, hk, hq],
              by simpa [postStep, post, hk, hq] using hlen⟩

theorem postAll_queue_bound :
    ∀ (xs : List PostArg) (s : BusState), 0 < s.event_queue_maxsize →
      (s.event_queue.length : Int) ≤ s.event_queue_maxsize →
      (postAll s xs).event_queue_maxsize = s.event_queue_maxsize
      ∧ ((postAll s xs).event_queue.length : Int) ≤ s.event_queue_maxsize
  | [], _, _, hlen => ⟨rfl, hlen⟩
  | x :: rest, s, hmax, hlen => by
      obtain ⟨hm, hl⟩ := postStep_queue_bound s x hmax hlen
      have hmax' : 0 < (postStep s x).event_queue_maxsize := by
        rw [hm]
        exact hmax
      have hlen' : ((postStep s x).event_queue.length : Int)
          ≤ (postStep s x).event_queue_maxsize := by
        rw [hm]
        exact hl
      obtain ⟨hm2, hl2⟩ := postAll_queue_bound rest (postStep s x) hmax' hlen'
      rw [hm] at hm2 hl2
      simp only [postAll, List.foldl_cons]
      exact ⟨hm2, hl2⟩

/-- C4 (amended): the shared unordered queue is the only bounded queue: it
is created with capacity max_queued_event, a put on it when full blocks
rather than growing it, and so after any sequence of posts from a fresh
bus its occupancy never exceeds max_queued_event (when that capacity is
positive; Python's Queue treats maxsize <= 0 as infinite).  The lane
queues are created unbounded, so no such bound holds for the total. -/
theorem shared_queue_bounded (mq ec : Int) (ts : Bool) (xs : List PostArg)
    (hmq : 0 < mq) :
    ((postAll (initBus mq ec ts) xs).event_queue.length : Int) ≤ mq := by
  have h := postAll_queue_bound xs (initBus mq ec ts) hmq
    (by simpa [initBus] using le_of_lt hmq)
  exact h.2

/-- Witness for C4's amended bound at a concrete input. -/
theorem shared_queue_bounded_witness :
    (0 : Int) < 5
  ∧ ((postAll (initBus 5 8 true)
      [PostArg.event (Event.mk [116] none)]).event_queue.length : Int) ≤ 5 :=
  ⟨by decide, shared_queue_bounded 5 8 true
      [PostArg.event (Event.mk [116] none)] (by decide)⟩

/-- C4 (counterexample): with max_queued_event = 1 and one worker, posting
two events sharing an ordering key from the fresh state is accepted and
leaves 2 events queued in the worker's (unbounded) lane: the total queue
occupancy exceeds the configured maximum 1. -/
theorem lane_queue_exceeds_max :
    (initBus 1 1 true).event_queue_maxsize = 1
  ∧ totalQueued (postAll (initBus 1 1 true)
      [PostArg.event (Event.mk [116] (some [97])),
       PostArg.event (Event.mk [116] (some [97]))]) = 2
  ∧ ¬(totalQueued (postAll (initBus 1 1 true)
      [PostArg.event (Event.mk [116] (some [97])),
       PostArg.event (Event.mk [116] (some [97]))]) ≤ 1) := by
  decide

end AsyncEventBus
